import Mathlib

/-!
Shallow embedding of `advanced-vector/vector.h` (template classes `RawMemory<T>` and
`Vector<T>`).

Modelling conventions.

* A `Vector<T>` state is the list of live element values together with the capacity of
  the owned `RawMemory` buffer (`Vec`).  Raw addresses are not represented; `RawMemory`
  itself only contributes the capacity field and the fact that a freshly allocated
  buffer holds no live elements.
* Element types are generic.  The two compile-time capability flags the source queries
  (`std::is_nothrow_move_constructible_v<T>`, `std::is_copy_constructible_v<T>`) are the
  fields of `Traits`.
* Failures of element constructors / copy constructors / assignment operators
  (C++ exceptions) are represented with `Except`: an operation returns
  `Except.error s` when an exception propagates out of it leaving the vector in
  state `s`, and `Except.ok s` on normal return.  Which element operation throws is
  injected through explicit fault parameters (`ctorFails`, `relocFails`, ...), one per
  `try`/construction site of the source, mirroring its control flow.
* Following the spec's relocation rule ("anything that is being moved is assumed
  infallible"), a relocation step can throw only when the copy branch of the
  `if constexpr` was selected (`relocThrows`).  Move assignment used by the shifting
  paths (`Emplace` in place, `Erase`) is allowed to throw, since those paths only
  promise a basic guarantee.
* A move (construction or assignment) transfers the source's value to the destination
  and leaves the source holding `mv` of it, where `mv : α → α` is the element type's
  moved-from residue (`mv = id` for value-preserving types such as `int`; a
  `std::string`-like type has a destructive `mv`).  Residues never reach an observable
  state when the source slot is destroyed or overwritten afterwards, which covers
  every relocation loop and the `Erase` shift; the one path that *reads* a residue —
  the in-place branch of `Emplace`, whose `std::move_backward` call runs after
  `++size_` and therefore re-reads the slot that was just moved into the new tail —
  tracks `mv` explicitly.
-/

/-- The two compile-time capabilities of the element type `T` that the source queries
with `std::is_nothrow_move_constructible_v<T>` and `std::is_copy_constructible_v<T>`. -/
structure Traits where
  nothrowMove : Bool
  copyCtible : Bool
deriving DecidableEq

/-- How a growth path relocates the live elements into the new buffer. -/
inductive RelocMode where
  | move : RelocMode
  | copy : RelocMode
deriving DecidableEq

/-- The selection made by
`if constexpr (std::is_nothrow_move_constructible_v<T> || !std::is_copy_constructible_v<T>)`
in `EmplaceBack`, `Emplace` and `Reserve`. -/
def relocMode (tr : Traits) : RelocMode :=
  if tr.nothrowMove || !tr.copyCtible then RelocMode.move else RelocMode.copy

/-- Whether a relocation step throws: `relocFails = some k` injects a failure of the
`k`-th element copy.  Only the copy branch can throw; the move branch is modelled as
non-failing (see the header comment). -/
def relocThrows (tr : Traits) (relocFails : Option Nat) : Bool :=
  if relocMode tr = RelocMode.copy then relocFails.isSome else false

/-- State of a `Vector<T>`: the values of the live elements in slots `[0, size)`, and
the capacity of the owned `RawMemory<T>` buffer (`data_.Capacity()`). -/
structure Vec (α : Type) where
  elems : List α
  cap : Nat
deriving DecidableEq

variable {α : Type}

/-- `Vector::Size()`: `size_` equals the number of live elements. -/
def Vec.Size (v : Vec α) : Nat := v.elems.length

/-- `Vector::Capacity()`, i.e. `data_.Capacity()`. -/
def Vec.Capacity (v : Vec α) : Nat := v.cap

/-- The structural invariant `0 <= size_ <= data_.Capacity()` (the lower bound is
implicit in `Nat`). -/
def Vec.Inv (v : Vec α) : Prop := v.Size ≤ v.Capacity

/-- The grown capacity `size_ == 0 ? 1 : size_ * 2` computed by `EmplaceBack` and
`Emplace` when `size_ == Capacity()`. -/
def growCapacity (size : Nat) : Nat := if size = 0 then 1 else size * 2

/-- `Vector::EmplaceBack(args...)`.  `ctorFails` injects a throw of
`new (...) T(std::forward<Args>(args)...)` (both the growth branch and the in-place
branch construct the new element with the same constructor call); `relocFails` injects
a throw of the relocation loop in the growth branch.  On a throw the source vector is
returned as the error state: in the growth branch the local `new_data` buffer is
discarded by the `catch` handlers (which also destroy the already constructed new
element) and `data_`/`size_` were never modified; in the in-place branch nothing was
modified yet. -/
def Vec.EmplaceBack (tr : Traits) (v : Vec α) (x : α) (ctorFails : Bool)
    (relocFails : Option Nat) : Except (Vec α) (Vec α) :=
  if v.Size = v.Capacity then
    if ctorFails then Except.error v
    else if relocThrows tr relocFails then Except.error v
    else Except.ok ⟨v.elems ++ [x], growCapacity v.Size⟩
  else
    if ctorFails then Except.error v
    else Except.ok ⟨v.elems ++ [x], v.Capacity⟩

/-- `Vector::Emplace(pos, args...)` with `o = pos - begin()` (the source asserts
`begin() <= pos <= end()`, i.e. `o ≤ Size`).  `mv` is the element type's moved-from
residue (see the header).  Returns the new state together with the offset of the
returned iterator `begin() + offset`.

Fault parameters, one per construction/`try` site of the source:
`ctorFails` — the construction of the new element from `args...` throws (the
`new (new_data + offset) T(...)` of the growth branch, or `T temp(...)` of the
in-place branch); `relocFails` — the relocation of the `offset`-long front part
throws; `relocTailFails` — the relocation of the shifted-by-one back part throws;
`shiftFails = some k` — in the in-place branch, the `k`-th backward move assignment of
`std::move_backward` (or the final `data_[offset] = std::move(temp)`) throws.  In
every growth-branch `catch`, everything already placed into `new_data` is destroyed
and `new_data` is discarded, so the error state is the untouched source vector (the
relocation loops transfer values into fresh storage and destroy the sources, so
residues never surface there).

In-place branch (`Size < Capacity`, `o < Size`, with `n = Size`): after `T temp(...)`,
`new (end()) T(std::move(*(end() - 1)))` constructs slot `n` from slot `n - 1`,
leaving slot `n - 1` holding `mv` of its value — the list `M` below, of length
`n + 1`.  Then `++size_`, so the subsequent
`std::move_backward(begin() + offset, end() - 1, end())` shifts the slot range
`[o, n)` — one slot too many: its first assignment re-reads the just moved-from slot
`n - 1` and overwrites slot `n` with the residue `M[n - 1] = mv (old last)`.  Finally
`data_[offset] = std::move(temp)` writes `x` into slot `o`, giving
`M.take o ++ x :: (M.drop o).take (n - o)`.  On `shiftFails = some k`, the `k`
completed backward assignments have shifted the top `k` source slots one slot up, the
`k`-th source slot holds its residue, and the `catch` destroys slot `size_ - 1` and
rolls `size_` back to `n` (the trailing `take Size`).  The `min o (Size - 1)` clamp
only totalizes the function for offsets the source's assert forbids; for every
`o < Size` it is the identity. -/
def Vec.Emplace (tr : Traits) (mv : α → α) (v : Vec α) (o : Nat) (x : α)
    (ctorFails : Bool) (relocFails relocTailFails shiftFails : Option Nat) :
    Except (Vec α) (Vec α × Nat) :=
  if v.Size = v.Capacity then
    if ctorFails then Except.error v
    else if 0 < o ∧ relocThrows tr relocFails = true then Except.error v
    else if o < v.Size ∧ relocThrows tr relocTailFails = true then Except.error v
    else Except.ok (⟨v.elems.take o ++ x :: v.elems.drop o, growCapacity v.Size⟩, o)
  else
    if o = v.Size then
      match Vec.EmplaceBack tr v x ctorFails relocFails with
      | Except.error e => Except.error e
      | Except.ok w => Except.ok (w, o)
    else
      if ctorFails then Except.error v
      else
        let M := v.elems.take (v.Size - 1) ++ (v.elems.drop (v.Size - 1)).map mv
          ++ v.elems.drop (v.Size - 1)
        match shiftFails with
        | some k =>
          Except.error
            ⟨(M.take (v.Size - k) ++ ((M.drop (v.Size - k)).take 1).map mv
              ++ (M.drop (v.Size - k)).take k).take v.Size, v.Capacity⟩
        | none =>
          Except.ok (⟨M.take (min o (v.Size - 1)) ++ x ::
            (M.drop (min o (v.Size - 1))).take (v.Size - min o (v.Size - 1)),
            v.Capacity⟩, o)

/-- `Vector::Insert(pos, value)`: both overloads forward to `Emplace`. -/
def Vec.Insert (tr : Traits) (mv : α → α) (v : Vec α) (o : Nat) (x : α)
    (ctorFails : Bool) (relocFails relocTailFails shiftFails : Option Nat) :
    Except (Vec α) (Vec α × Nat) :=
  Vec.Emplace tr mv v o x ctorFails relocFails relocTailFails shiftFails

/-- `Vector::PopBack()` (the source asserts `size_ > 0`): destroy the last live
element and decrement `size_`. -/
def Vec.PopBack (v : Vec α) : Vec α := ⟨v.elems.dropLast, v.Capacity⟩

/-- `Vector::Erase(pos)` with `o = pos - begin()` (the source asserts
`begin() <= pos < end()`).  `std::move(begin() + o + 1, end(), begin() + o)` shifts the
tail one slot toward the front by move assignment, then `PopBack()` destroys the
vacated last slot; the offset of the returned iterator `begin() + offset` is the second
component.  `shiftFails = some k` injects a throw of the `k`-th move assignment of the
shift: the exception propagates with `size_` still undecremented and the first `k`
shifted slots holding their new values. -/
def Vec.Erase (v : Vec α) (o : Nat) (shiftFails : Option Nat) :
    Except (Vec α) (Vec α × Nat) :=
  match shiftFails with
  | some k =>
    Except.error
      ⟨v.elems.take o ++ (v.elems.drop (o + 1)).take k ++ v.elems.drop (o + k),
       v.Capacity⟩
  | none =>
    Except.ok
      (Vec.PopBack ⟨v.elems.take o ++ v.elems.drop (o + 1) ++ v.elems.drop (v.Size - 1),
        v.Capacity⟩, o)

/-- `Vector::Reserve(new_capacity)`.  A no-op when `new_capacity <= data_.Capacity()`;
otherwise a fresh buffer of exactly `new_capacity` slots is allocated, the live
elements are relocated by the `if constexpr` move/copy selection (`relocThrows`), the
originals destroyed, and the new buffer adopted.  On a relocation throw,
`std::uninitialized_copy_n` destroys whatever it already constructed, the local
`new_data` is discarded, and `data_`/`size_` are untouched. -/
def Vec.Reserve (tr : Traits) (v : Vec α) (newCapacity : Nat)
    (relocFails : Option Nat) : Except (Vec α) (Vec α) :=
  if newCapacity ≤ v.Capacity then Except.ok v
  else
    if 0 < v.Size then
      if relocThrows tr relocFails then Except.error v
      else Except.ok ⟨v.elems, newCapacity⟩
    else Except.ok ⟨v.elems, newCapacity⟩

/-- `Vector::Vector(size_t size)`: allocate a buffer of exactly `size` slots
(`data_(size)`), then `std::uninitialized_value_construct_n` default-constructs the
`size` elements one at a time; `d` is the value produced by the element type's default
constructor.  `failAt = some k` injects a throw of the `k`-th default construction
(possible only for `k < size`): `uninitialized_value_construct_n` destroys the
elements it already constructed, and unwinding out of the constructor destroys the
`data_` member, releasing the buffer — no vector state escapes, hence `Except.error
()`. -/
def Vec.Sized (d : α) (size : Nat) (failAt : Option Nat) : Except Unit (Vec α) :=
  match failAt with
  | some k =>
    if k < size then Except.error () else Except.ok ⟨List.replicate size d, size⟩
  | none => Except.ok ⟨List.replicate size d, size⟩

/-- `Vector::Vector(const Vector& other)`: allocate a buffer of `other.size_` slots,
copy-construct the `other.size_` elements (`std::uninitialized_copy_n`); `failAt =
some k` injects a throw of the `k`-th element copy, which unwinds exactly like
`Sized`.  Note the fresh capacity is `other.size_`, not `other`'s capacity. -/
def Vec.Copy (other : Vec α) (failAt : Option Nat) : Except Unit (Vec α) :=
  match failAt with
  | some k =>
    if k < other.Size then Except.error ()
    else Except.ok ⟨other.elems, other.Size⟩
  | none => Except.ok ⟨other.elems, other.Size⟩

/-- `Vector::AssignFrom(other)` (private, reached from copy assignment when
`other.size_ <= data_.Capacity()`): `std::copy` assigns the overlapping front part of
`min(other.size_, size_)` elements, then either copy-constructs the extra trailing
elements of `other` or destroys the surplus trailing elements of `*this`.  `failAt =
some k`: for `k < min(other.size_, size_)` the `k`-th copy assignment throws (already
assigned slots keep their new values, the rest their old ones, `size_` unchanged); for
`min <= k < other.size_` (only possible when `other.size_ > size_`) the `k`-th element
operation is a trailing copy construction and `std::uninitialized_copy_n` destroys the
trailing elements it already constructed, so the error state has the fully assigned
front part and the old size. -/
def Vec.AssignFrom (dst other : Vec α) (failAt : Option Nat) :
    Except (Vec α) (Vec α) :=
  match failAt with
  | some k =>
    if k < min other.Size dst.Size then
      Except.error ⟨other.elems.take k ++ dst.elems.drop k, dst.Capacity⟩
    else if k < other.Size then
      Except.error ⟨other.elems.take dst.Size, dst.Capacity⟩
    else Except.ok ⟨other.elems, dst.Capacity⟩
  | none => Except.ok ⟨other.elems, dst.Capacity⟩

/-- `Vector::operator=(const Vector& rhs)`.  `self` mirrors the aliasing test
`this != &rhs` (`self = true` means the two operands are the same object): on
self-assignment the body is skipped entirely, so no element operation and no
allocation can run and no fault parameter is consulted.  Otherwise, when `rhs.size_ >
data_.Capacity()` a full temporary `Vector rhs_copy(rhs)` is built (`Vec.Copy`) and
swapped in — if the copy throws, `*this` was never touched; else `AssignFrom` reuses
the storage. -/
def Vec.copyAssign (dst rhs : Vec α) (self : Bool) (failAt : Option Nat) :
    Except (Vec α) (Vec α) :=
  if self then Except.ok dst
  else if dst.Capacity < rhs.Size then
    match Vec.Copy rhs failAt with
    | Except.error _ => Except.error dst
    | Except.ok c => Except.ok c
  else Vec.AssignFrom dst rhs failAt

/-- `Vector::operator=(Vector&& rhs) noexcept`: when `this != &rhs` (`self = false`),
the two states are exchanged by `Swap` — O(1), no element operation; on
self-assignment the body is skipped.  Returns the pair (new `*this`, new `rhs`). -/
def Vec.moveAssign (dst rhs : Vec α) (self : Bool) : Vec α × Vec α :=
  if self then (dst, rhs) else (rhs, dst)

/-- `Vector::Resize(new_size)`: shrink by destroying the trailing `size_ - new_size`
elements; grow by `Reserve(new_size)` followed by default construction of the
`new_size - size_` new trailing elements (`failAt = some k` injects a throw of the
`k`-th of those constructions; `uninitialized_value_construct_n` destroys the ones it
already built and `size_` is not yet updated, but the capacity growth done by
`Reserve` persists). -/
def Vec.Resize (tr : Traits) (v : Vec α) (newSize : Nat) (d : α)
    (relocFails failAt : Option Nat) : Except (Vec α) (Vec α) :=
  if newSize < v.Size then Except.ok ⟨v.elems.take newSize, v.Capacity⟩
  else if v.Size < newSize then
    match Vec.Reserve tr v newSize relocFails with
    | Except.error e => Except.error e
    | Except.ok w =>
      match failAt with
      | some k =>
        if k < newSize - v.Size then Except.error w
        else Except.ok ⟨w.elems ++ List.replicate (newSize - v.Size) d, w.Capacity⟩
      | none => Except.ok ⟨w.elems ++ List.replicate (newSize - v.Size) d, w.Capacity⟩
  else Except.ok v

/-- Helper for stating the invariant on either outcome of an operation: the state the
caller observes is the ok-state on normal return and the error-state when an exception
propagates. -/
def outcomeInv (r : Except (Vec α) (Vec α)) : Prop :=
  match r with
  | Except.ok w => w.Inv
  | Except.error e => e.Inv

theorem growCapacity_eq_max (n : Nat) : growCapacity n = max 1 (2 * n) := by
  unfold growCapacity
  rcases Nat.eq_zero_or_pos n with h | h
  · simp [h]
  · have hne : n ≠ 0 := by omega
    have h1 : 1 ≤ 2 * n := by omega
    simp [hne, Nat.max_eq_right h1]
    omega

theorem relocThrows_none (tr : Traits) : relocThrows tr none = false := by
  unfold relocThrows
  split <;> simp

/-- C1: if the element constructor raises during a growth (`size_ == Capacity()`)
triggered by `EmplaceBack` or `Emplace`, the exception propagates with the vector's
size, capacity and element values exactly as before the call. -/
theorem growth_ctor_fail_strong (tr : Traits) (mv : α → α) (v : Vec α) (x : α)
    (o : Nat) (rf rtf sf : Option Nat) (hfull : v.Size = v.Capacity) :
    Vec.EmplaceBack tr v x true rf = Except.error v ∧
    Vec.Emplace tr mv v o x true rf rtf sf = Except.error v := by
  unfold Vec.EmplaceBack Vec.Emplace
  simp [hfull]

theorem growth_ctor_fail_strong_witness :
    Vec.EmplaceBack ⟨true, true⟩ (⟨[1, 2], 2⟩ : Vec Nat) 5 true none =
      Except.error ⟨[1, 2], 2⟩ ∧
    Vec.Emplace ⟨true, true⟩ id (⟨[1, 2], 2⟩ : Vec Nat) 1 5 true none none none =
      Except.error ⟨[1, 2], 2⟩ :=
  growth_ctor_fail_strong ⟨true, true⟩ id ⟨[1, 2], 2⟩ 5 1 none none none rfl

/-- C2: on a fault-free append, the resulting capacity is `max 1 (2 * size)` when the
call had to grow (`size == capacity`) and is unchanged otherwise, for both
`EmplaceBack` and `Emplace`. -/
theorem growth_capacity_rule (tr : Traits) (mv : α → α) (v : Vec α) (x : α)
    (o : Nat) (ho : o ≤ v.Size) :
    (Vec.EmplaceBack tr v x false none).map Vec.Capacity =
      Except.ok (if v.Size = v.Capacity then max 1 (2 * v.Size) else v.Capacity) ∧
    (Vec.Emplace tr mv v o x false none none none).map (fun p => p.1.Capacity) =
      Except.ok (if v.Size = v.Capacity then max 1 (2 * v.Size) else v.Capacity) := by
  simp only [Vec.Capacity]
  unfold Vec.EmplaceBack Vec.Emplace
  by_cases h : v.Size = v.cap
  · simp [Vec.Capacity, h, relocThrows_none, growCapacity_eq_max, Except.map]
  · by_cases ho2 : o = v.Size
    · simp [Vec.Capacity, Vec.EmplaceBack, h, ho2, relocThrows_none, Except.map]
    · simp [Vec.Capacity, h, ho2, relocThrows_none, Except.map]

theorem growth_capacity_rule_witness :
    (Vec.EmplaceBack ⟨true, true⟩ (⟨[1, 2], 2⟩ : Vec Nat) 5 false none).map
      Vec.Capacity = Except.ok 4 ∧
    (Vec.Emplace ⟨true, true⟩ id (⟨[1, 2], 2⟩ : Vec Nat) 1 5 false none none
      none).map (fun p => p.1.Capacity) = Except.ok 4 := by
  have h := growth_capacity_rule (α := Nat) ⟨true, true⟩ id ⟨[1, 2], 2⟩ 5 1
    (by decide)
  simpa using h

/-- C3: every growth/relocation path selects move relocation exactly when the element
type's move construction cannot throw or the type is not copy-constructible
(`relocMode`); in the copy branch a mid-relocation failure leaves the original vector
(size, capacity, values) untouched, for `Reserve`, `EmplaceBack` and `Emplace` alike,
and a fault-free relocation transfers the element values unchanged. -/
theorem relocation_rule (tr : Traits) (mv : α → α) (v : Vec α) (x : α)
    (n o k : Nat) (rtf : Option Nat) (hsz : 0 < v.Size) (hcap : v.Capacity < n)
    (hfull : v.Size = v.Capacity) (ho : 0 < o) (hos : o ≤ v.Size) :
    (relocMode tr = RelocMode.move ↔
      (tr.nothrowMove = true ∨ tr.copyCtible = false)) ∧
    (relocMode tr = RelocMode.copy →
      Vec.Reserve tr v n (some k) = Except.error v) ∧
    (relocMode tr = RelocMode.copy →
      Vec.EmplaceBack tr v x false (some k) = Except.error v) ∧
    (relocMode tr = RelocMode.copy →
      Vec.Emplace tr mv v o x false (some k) rtf none = Except.error v) ∧
    Vec.Reserve tr v n none = Except.ok ⟨v.elems, n⟩ := by
  refine ⟨?_, ?_, ?_, ?_, ?_⟩
  · unfold relocMode
    rcases tr with ⟨nm, cc⟩
    cases nm <;> cases cc <;> simp
  · intro hc
    unfold Vec.Reserve
    simp [Nat.not_le.mpr hcap, hsz, relocThrows, hc]
  · intro hc
    unfold Vec.EmplaceBack
    simp [hfull, relocThrows, hc]
  · intro hc
    unfold Vec.Emplace
    simp [hfull, relocThrows, hc, ho]
  · unfold Vec.Reserve
    simp [Nat.not_le.mpr hcap, relocThrows_none]

theorem relocation_rule_witness :
    ((relocMode ⟨false, true⟩ = RelocMode.move ↔
      ((⟨false, true⟩ : Traits).nothrowMove = true ∨
        (⟨false, true⟩ : Traits).copyCtible = false)) ∧
    (relocMode ⟨false, true⟩ = RelocMode.copy →
      Vec.Reserve ⟨false, true⟩ (⟨[1], 1⟩ : Vec Nat) 3 (some 0) =
        Except.error ⟨[1], 1⟩) ∧
    (relocMode ⟨false, true⟩ = RelocMode.copy →
      Vec.EmplaceBack ⟨false, true⟩ (⟨[1], 1⟩ : Vec Nat) 5 false (some 0) =
        Except.error ⟨[1], 1⟩) ∧
    (relocMode ⟨false, true⟩ = RelocMode.copy →
      Vec.Emplace ⟨false, true⟩ id (⟨[1], 1⟩ : Vec Nat) 1 5 false (some 0) none
        none = Except.error ⟨[1], 1⟩) ∧
    Vec.Reserve ⟨false, true⟩ (⟨[1], 1⟩ : Vec Nat) 3 none = Except.ok ⟨[1], 3⟩) :=
  relocation_rule ⟨false, true⟩ id ⟨[1], 1⟩ 5 3 1 0 none (by decide) (by decide)
    rfl (by decide) (by decide)

/-- C6: `Reserve(n)` with `n <= Capacity()` returns the state unchanged (no
reallocation); with `n > Capacity()` it sets the capacity to exactly `n` and leaves
the size and element values unchanged; and if the (copy) relocation throws, the error
state is exactly the original vector. -/
theorem reserve_spec (tr : Traits) (v : Vec α) (n : Nat) (rf : Option Nat) :
    (n ≤ v.Capacity → Vec.Reserve tr v n rf = Except.ok v) ∧
    (v.Capacity < n → Vec.Reserve tr v n none = Except.ok ⟨v.elems, n⟩) ∧
    (v.Capacity < n → ∀ e, Vec.Reserve tr v n rf = Except.error e → e = v) := by
  refine ⟨?_, ?_, ?_⟩
  · intro h
    unfold Vec.Reserve
    simp [h]
  · intro h
    unfold Vec.Reserve
    simp [Nat.not_le.mpr h, relocThrows_none]
  · intro h e
    unfold Vec.Reserve
    simp [Nat.not_le.mpr h]
    split
    · split
      · intro he
        exact (Except.error.injEq _ _ ▸ he).symm
      · intro he
        cases he
    · intro he
      cases he

theorem reserve_spec_witness :
    (3 ≤ (⟨[1, 2], 4⟩ : Vec Nat).Capacity →
      Vec.Reserve ⟨true, true⟩ (⟨[1, 2], 4⟩ : Vec Nat) 3 none =
        Except.ok ⟨[1, 2], 4⟩) ∧
    ((⟨[1, 2], 4⟩ : Vec Nat).Capacity < 3 →
      Vec.Reserve ⟨true, true⟩ (⟨[1, 2], 4⟩ : Vec Nat) 3 none =
        Except.ok ⟨[1, 2], 3⟩) ∧
    ((⟨[1, 2], 4⟩ : Vec Nat).Capacity < 3 → ∀ e,
      Vec.Reserve ⟨true, true⟩ (⟨[1, 2], 4⟩ : Vec Nat) 3 none = Except.error e →
        e = ⟨[1, 2], 4⟩) :=
  reserve_spec ⟨true, true⟩ ⟨[1, 2], 4⟩ 3 none

/-- C7: a fault-free `Vector(n)` yields size `n`, capacity at least `n` (exactly `n`),
and every element equal to the default-constructed value; if the `k`-th default
construction throws, no vector state survives — the previously constructed elements
are destroyed and the buffer is released before the exception propagates. -/
theorem sized_ctor_spec (d : α) (n : Nat) :
    (∀ v, Vec.Sized d n none = Except.ok v →
      v.Size = n ∧ n ≤ v.Capacity ∧ v.elems = List.replicate n d) ∧
    (∀ k, k < n → Vec.Sized d n (some k) = Except.error ()) := by
  constructor
  · intro v hv
    unfold Vec.Sized at hv
    cases hv
    simp [Vec.Size, Vec.Capacity]
  · intro k hk
    unfold Vec.Sized
    simp [hk]

theorem sized_ctor_spec_witness :
    (⟨[7, 7, 7], 3⟩ : Vec Nat).Size = 3 ∧ 3 ≤ (⟨[7, 7, 7], 3⟩ : Vec Nat).Capacity ∧
    (⟨[7, 7, 7], 3⟩ : Vec Nat).elems = List.replicate 3 7 ∧
    Vec.Sized (7 : Nat) 3 (some 1) = Except.error () := by
  have h := sized_ctor_spec (7 : Nat) 3
  exact ⟨(h.1 ⟨[7, 7, 7], 3⟩ rfl).1, (h.1 ⟨[7, 7, 7], 3⟩ rfl).2.1,
    (h.1 ⟨[7, 7, 7], 3⟩ rfl).2.2, h.2 1 (by decide)⟩

/-- C9: self-assignment, by copy or by move, is a no-op: the aliasing test
`this != &rhs` skips the whole body, so the state is returned unchanged and — since
the result does not depend on any fault parameter — no element copy, move,
destruction or allocation is performed. -/
theorem self_assign_noop (v : Vec α) (failAt : Option Nat) :
    Vec.copyAssign v v true failAt = Except.ok v ∧
    Vec.moveAssign v v true = (v, v) := by
  constructor
  · unfold Vec.copyAssign
    simp
  · unfold Vec.moveAssign
    simp

theorem erase_ok (v : Vec α) (o : Nat) (ho : o < v.Size) :
    Vec.Erase v o none =
      Except.ok (⟨v.elems.take o ++ v.elems.drop (o + 1), v.Capacity⟩, o) := by
  have hlen : (v.elems.drop (v.Size - 1)).length = 1 := by
    simp only [List.length_drop, Vec.Size] at *
    omega
  obtain ⟨a, ha⟩ := List.length_eq_one.mp hlen
  unfold Vec.Erase Vec.PopBack
  simp only [Vec.Capacity, ha, List.dropLast_concat]

/-- C5: refuted on the code — evaluation at the failing input.  For an element type
whose move leaves the source without its value (`std::string`-like: nothrow move,
copy-constructible, destructive residue, here `mv = fun _ => 0` on `Nat` models the
moved-from value), a fault-free `Insert(begin() + 1, 9)` into `[10, 20, 30]` with
spare capacity (4) takes the in-place branch and produces `[10, 9, 20, 0]`: the
`std::move_backward(begin() + offset, end() - 1, end())` call issued after `++size_`
re-reads the moved-from slot 2 and overwrites the just-constructed tail, losing the
last element's value `30`.  The immediately following `Erase` at the returned
position then yields `[10, 20, 0]`, not the prior sequence `[10, 20, 30]` the claim
requires.  (For value-preserving moves, e.g. `int`, and for the reallocating branch
the roundtrip does restore the sequence.) -/
theorem insert_erase_code_bug :
    Vec.Insert ⟨true, true⟩ (fun _ => 0) (⟨[10, 20, 30], 4⟩ : Vec Nat) 1 9 false
      none none none = Except.ok (⟨[10, 9, 20, 0], 4⟩, 1) ∧
    (Vec.Erase (⟨[10, 9, 20, 0], 4⟩ : Vec Nat) 1 none).map (fun q => q.1.elems) =
      Except.ok [10, 20, 0] ∧
    ([10, 20, 0] : List Nat) ≠ [10, 20, 30] :=
  ⟨rfl, rfl, by decide⟩

/-- C10: a fault-free `Erase(begin() + o)` for `o` in `[begin, end)` returns the
iterator offset `o` itself, the size shrinks by one, and the slot at the returned
position holds the element that followed the erased one (or is `end()` when the last
element was erased, both sides of the lookup being `none`). -/
theorem erase_offset (v : Vec α) (o : Nat) (ho : o < v.Size) :
    ∀ r j, Vec.Erase v o none = Except.ok (r, j) →
      j = o ∧ r.Size = v.Size - 1 ∧ r.elems[o]? = v.elems[o + 1]? := by
  intro r j h
  rw [erase_ok v o ho] at h
  cases h
  have hA : (v.elems.take o).length = o := by
    simp [List.length_take, Vec.Size] at *
    omega
  refine ⟨rfl, ?_, ?_⟩
  · simp [Vec.Size, List.length_take, List.length_drop] at *
    omega
  · rw [List.getElem?_append_right (by omega : (v.elems.take o).length ≤ o)]
    rw [List.getElem?_drop]
    congr 1
    omega

theorem erase_offset_witness :
    (1 : Nat) = 1 ∧
    (⟨[1, 2, 3], 4⟩ : Vec Nat).Size = (⟨[1, 9, 2, 3], 4⟩ : Vec Nat).Size - 1 ∧
    (⟨[1, 2, 3], 4⟩ : Vec Nat).elems[1]? =
      (⟨[1, 9, 2, 3], 4⟩ : Vec Nat).elems[1 + 1]? :=
  erase_offset ⟨[1, 9, 2, 3], 4⟩ 1 (by decide) ⟨[1, 2, 3], 4⟩ 1 rfl

/-- C4: copy assignment between distinct vectors.  When the source's size exceeds the
destination's capacity, a full temporary copy is built and swapped in: if any element
copy throws the destination is exactly unchanged, and on success the destination holds
the source's elements (with capacity `src.Size`, the temporary's buffer).  When the
source fits within the destination's capacity the storage is reused (capacity
unchanged) and a mid-operation failure leaves a valid state — same size and capacity
as before, invariant intact — but only this basic guarantee. -/
theorem copy_assign_spec (dst src : Vec α) (k : Nat) (hInv : dst.Inv) :
    (dst.Capacity < src.Size → k < src.Size →
      Vec.copyAssign dst src false (some k) = Except.error dst) ∧
    (dst.Capacity < src.Size →
      Vec.copyAssign dst src false none = Except.ok ⟨src.elems, src.Size⟩) ∧
    (src.Size ≤ dst.Capacity →
      Vec.copyAssign dst src false none = Except.ok ⟨src.elems, dst.Capacity⟩) ∧
    (src.Size ≤ dst.Capacity → ∀ e,
      Vec.copyAssign dst src false (some k) = Except.error e →
      e.Inv ∧ e.Capacity = dst.Capacity ∧ e.Size = dst.Size) := by
  have hInv' : dst.elems.length ≤ dst.cap := hInv
  refine ⟨?_, ?_, ?_, ?_⟩
  · intro hlt hk
    unfold Vec.copyAssign Vec.Copy
    simp [hlt, hk]
  · intro hlt
    unfold Vec.copyAssign Vec.Copy
    simp [hlt]
  · intro hle
    unfold Vec.copyAssign Vec.AssignFrom
    simp [Nat.not_lt.mpr hle]
  · intro hle e
    unfold Vec.copyAssign Vec.AssignFrom
    simp only [if_neg (Bool.false_ne_true), Nat.not_lt.mpr hle]
    simp [Nat.not_lt.mpr hle]
    split_ifs with h1 h2
    · intro he
      injection he with he
      subst he
      refine ⟨?_, rfl, ?_⟩ <;>
        simp [Vec.Inv, Vec.Size, Vec.Capacity, List.length_take, List.length_drop,
          List.length_append] <;>
        simp [Vec.Size, Vec.Capacity] at h1 hInv' hle <;>
        omega
    · intro he
      injection he with he
      subst he
      refine ⟨?_, rfl, ?_⟩ <;>
        simp [Vec.Inv, Vec.Size, Vec.Capacity, List.length_take] <;>
        simp [Vec.Size, Vec.Capacity] at h1 h2 hInv' hle <;>
        omega
    · simp

theorem copy_assign_spec_witness :
    Vec.copyAssign (⟨[1, 2], 2⟩ : Vec Nat) ⟨[7, 8, 9], 5⟩ false (some 1) =
      Except.error ⟨[1, 2], 2⟩ ∧
    Vec.copyAssign (⟨[1, 2], 2⟩ : Vec Nat) ⟨[7, 8, 9], 5⟩ false none =
      Except.ok ⟨[7, 8, 9], 3⟩ ∧
    Vec.copyAssign (⟨[1, 2], 3⟩ : Vec Nat) ⟨[7, 8], 4⟩ false none =
      Except.ok ⟨[7, 8], 3⟩ ∧
    ((⟨[7, 2], 3⟩ : Vec Nat).Inv ∧
      (⟨[7, 2], 3⟩ : Vec Nat).Capacity = (⟨[1, 2], 3⟩ : Vec Nat).Capacity ∧
      (⟨[7, 2], 3⟩ : Vec Nat).Size = (⟨[1, 2], 3⟩ : Vec Nat).Size) :=
  ⟨(copy_assign_spec (⟨[1, 2], 2⟩ : Vec Nat) ⟨[7, 8, 9], 5⟩ 1
      (by simp [Vec.Inv, Vec.Size, Vec.Capacity])).1 (by decide) (by decide),
   (copy_assign_spec (⟨[1, 2], 2⟩ : Vec Nat) ⟨[7, 8, 9], 5⟩ 1
      (by simp [Vec.Inv, Vec.Size, Vec.Capacity])).2.1 (by decide),
   (copy_assign_spec (⟨[1, 2], 3⟩ : Vec Nat) ⟨[7, 8], 4⟩ 1
      (by simp [Vec.Inv, Vec.Size, Vec.Capacity])).2.2.1 (by decide),
   (copy_assign_spec (⟨[1, 2], 3⟩ : Vec Nat) ⟨[7, 8], 4⟩ 1
      (by simp [Vec.Inv, Vec.Size, Vec.Capacity])).2.2.2 (by decide)
     ⟨[7, 2], 3⟩ rfl⟩

theorem inv_emplaceBack (tr : Traits) (v : Vec α) (x : α) (cf : Bool)
    (rf : Option Nat) (hv : v.Inv) : outcomeInv (Vec.EmplaceBack tr v x cf rf) := by
  have hv' : v.elems.length ≤ v.cap := hv
  unfold Vec.EmplaceBack
  split_ifs with h1 h2 h3 h4 <;>
    simp_all [outcomeInv, Vec.Inv, Vec.Size, Vec.Capacity, growCapacity_eq_max] <;>
    omega

theorem inv_emplace (tr : Traits) (mv : α → α) (v : Vec α) (o : Nat) (x : α)
    (cf : Bool) (rf rtf sf : Option Nat) (hv : v.Inv) :
    outcomeInv ((Vec.Emplace tr mv v o x cf rf rtf sf).map Prod.fst) := by
  have hv' : v.elems.length ≤ v.cap := hv
  unfold Vec.Emplace
  by_cases h1 : v.Size = v.Capacity
  · simp only [h1, if_pos rfl]
    split_ifs with h2 h3 h4 <;>
      simp_all [outcomeInv, Except.map, Vec.Inv, Vec.Size, Vec.Capacity,
        growCapacity_eq_max, List.length_take, List.length_drop] <;>
      omega
  · simp only [if_neg h1]
    by_cases h2 : o = v.Size
    · simp only [if_pos h2]
      cases hEB : Vec.EmplaceBack tr v x cf rf with
      | error e =>
        have := inv_emplaceBack tr v x cf rf hv
        rw [hEB] at this
        simpa [outcomeInv, Except.map] using this
      | ok w =>
        have := inv_emplaceBack tr v x cf rf hv
        rw [hEB] at this
        simpa [outcomeInv, Except.map] using this
    · simp only [if_neg h2]
      split_ifs with h3 <;> cases sf <;>
        simp_all [outcomeInv, Except.map, Vec.Inv, Vec.Size, Vec.Capacity,
          List.length_take, List.length_drop, List.length_append,
          List.length_map] <;>
        omega

theorem inv_erase (v : Vec α) (o : Nat) (sf : Option Nat) (hv : v.Inv) :
    outcomeInv ((Vec.Erase v o sf).map Prod.fst) := by
  have hv' : v.elems.length ≤ v.cap := hv
  unfold Vec.Erase Vec.PopBack
  cases sf <;>
    simp_all [outcomeInv, Except.map, Vec.Inv, Vec.Size, Vec.Capacity,
      List.length_take, List.length_drop, List.length_append,
      List.length_dropLast] <;>
    omega

theorem inv_reserve (tr : Traits) (v : Vec α) (n : Nat) (rf : Option Nat)
    (hv : v.Inv) : outcomeInv (Vec.Reserve tr v n rf) := by
  have hv' : v.elems.length ≤ v.cap := hv
  unfold Vec.Reserve
  split_ifs <;>
    simp_all [outcomeInv, Vec.Inv, Vec.Size, Vec.Capacity] <;>
    omega

theorem reserve_ok_shape (tr : Traits) (v : Vec α) (n : Nat) (rf : Option Nat)
    (w : Vec α) (h : Vec.Reserve tr v n rf = Except.ok w) :
    w.elems = v.elems ∧ n ≤ w.Capacity ∧ v.Capacity ≤ w.Capacity := by
  unfold Vec.Reserve at h
  split_ifs at h <;> cases h <;>
    simp_all [Vec.Capacity] <;>
    omega

theorem inv_sized (d : α) (n : Nat) (fa : Option Nat) :
    ∀ u, Vec.Sized d n fa = Except.ok u → u.Inv := by
  intro u hu
  unfold Vec.Sized at hu
  cases fa with
  | none =>
    cases hu
    simp [Vec.Inv, Vec.Size, Vec.Capacity]
  | some k =>
    by_cases hk : k < n
    · simp [hk] at hu
    · simp [hk] at hu
      subst hu
      simp [Vec.Inv, Vec.Size, Vec.Capacity]

theorem inv_copyAssign (dst rhs : Vec α) (self : Bool) (fa : Option Nat)
    (hd : dst.Inv) : outcomeInv (Vec.copyAssign dst rhs self fa) := by
  have hd' : dst.elems.length ≤ dst.cap := hd
  unfold Vec.copyAssign Vec.Copy Vec.AssignFrom
  cases self
  case true => simpa [outcomeInv] using hd
  case false =>
    by_cases hcap : dst.cap < rhs.elems.length
    · have hcapC : dst.Capacity < rhs.Size := hcap
      cases fa with
      | none =>
        simp [hcap, hcapC, outcomeInv, Vec.Inv, Vec.Size, Vec.Capacity] <;> omega
      | some k =>
        by_cases hk : k < rhs.elems.length
        · have hkC : k < rhs.Size := hk
          simp [hcap, hcapC, hk, hkC, outcomeInv, Vec.Inv, Vec.Size,
            Vec.Capacity] <;> omega
        · have hkC : ¬k < rhs.Size := hk
          simp [hcap, hcapC, hk, hkC, outcomeInv, Vec.Inv, Vec.Size,
            Vec.Capacity] <;> omega
    · have hcapC : ¬dst.Capacity < rhs.Size := hcap
      cases fa with
      | none =>
        simp [hcap, hcapC, outcomeInv, Vec.Inv, Vec.Size, Vec.Capacity] <;> omega
      | some k =>
        simp only [hcap, hcapC, if_false, Bool.false_eq_true]
        split_ifs with h1 h2 <;>
          simp_all [outcomeInv, Vec.Inv, Vec.Size, Vec.Capacity, List.length_take,
            List.length_drop, List.length_append] <;>
          omega

theorem inv_resize (tr : Traits) (v : Vec α) (n : Nat) (d : α)
    (rf fa : Option Nat) (hv : v.Inv) :
    outcomeInv (Vec.Resize tr v n d rf fa) := by
  have hv' : v.elems.length ≤ v.cap := hv
  unfold Vec.Resize
  split_ifs with h1 h2
  · simp [outcomeInv, Vec.Inv, Vec.Size, Vec.Capacity, List.length_take]
    omega
  · cases hR : Vec.Reserve tr v n rf with
    | error e =>
      have := inv_reserve tr v n rf hv
      rw [hR] at this
      simpa [outcomeInv] using this
    | ok w =>
      obtain ⟨hw1, hw2, hw3⟩ := reserve_ok_shape tr v n rf w hR
      have hw2' : n ≤ w.cap := hw2
      have hwInv : w.elems.length ≤ w.cap := by
        rw [hw1]
        exact le_trans hv' (le_trans (Nat.le_of_lt_succ (Nat.lt_succ_of_le hw3))
          (le_refl _))
      have h2' : v.elems.length < n := h2
      cases fa with
      | none =>
        simp [outcomeInv, Vec.Inv, Vec.Size, Vec.Capacity, hw1,
          List.length_append, List.length_replicate]
        omega
      | some k =>
        dsimp only
        split_ifs with hk
        · simpa [outcomeInv, Vec.Inv, Vec.Size, Vec.Capacity] using hwInv
        · simp [outcomeInv, Vec.Inv, Vec.Size, Vec.Capacity, hw1,
            List.length_append, List.length_replicate]
          omega
  · simpa [outcomeInv] using hv

/-- C8: every modelled public operation of the dynamic array, started from a state
satisfying the structural invariant `size <= capacity`, ends in a state satisfying it
again — both on normal return and in the state left behind when an injected element
failure propagates. -/
theorem invariant_preserved (tr : Traits) (mv : α → α) (v w : Vec α) (x d : α)
    (o n : Nat) (cf self : Bool) (rf rtf sf fa : Option Nat)
    (hv : v.Inv) (hw : w.Inv) :
    (∀ u, Vec.Sized d n fa = Except.ok u → u.Inv) ∧
    outcomeInv (Vec.EmplaceBack tr v x cf rf) ∧
    outcomeInv ((Vec.Emplace tr mv v o x cf rf rtf sf).map Prod.fst) ∧
    outcomeInv ((Vec.Insert tr mv v o x cf rf rtf sf).map Prod.fst) ∧
    outcomeInv ((Vec.Erase v o sf).map Prod.fst) ∧
    (Vec.PopBack v).Inv ∧
    outcomeInv (Vec.Reserve tr v n rf) ∧
    outcomeInv (Vec.Resize tr v n d rf fa) ∧
    outcomeInv (Vec.copyAssign v w self fa) ∧
    (Vec.moveAssign v w self).1.Inv ∧ (Vec.moveAssign v w self).2.Inv := by
  refine ⟨inv_sized d n fa, inv_emplaceBack tr v x cf rf hv,
    inv_emplace tr mv v o x cf rf rtf sf hv,
    inv_emplace tr mv v o x cf rf rtf sf hv,
    inv_erase v o sf hv, ?_, inv_reserve tr v n rf hv,
    inv_resize tr v n d rf fa hv, inv_copyAssign v w self fa hv, ?_, ?_⟩
  · have hv' : v.elems.length ≤ v.cap := hv
    simp [Vec.PopBack, Vec.Inv, Vec.Size, Vec.Capacity, List.length_dropLast]
    omega
  · unfold Vec.moveAssign
    cases self <;> simpa [Vec.Inv]
  · unfold Vec.moveAssign
    cases self <;> simpa [Vec.Inv]

theorem invariant_preserved_witness :
    ((⟨[0, 0, 0], 3⟩ : Vec Nat).Inv ∧
    outcomeInv (Vec.EmplaceBack ⟨false, true⟩ (⟨[1, 2], 2⟩ : Vec Nat) 5 false
      (some 0)) ∧
    outcomeInv ((Vec.Emplace ⟨false, true⟩ (fun _ => 0) (⟨[1, 2], 2⟩ : Vec Nat) 1 5
      false (some 0) none none).map Prod.fst) ∧
    outcomeInv ((Vec.Insert ⟨false, true⟩ (fun _ => 0) (⟨[1, 2], 2⟩ : Vec Nat) 1 5
      false (some 0) none none).map Prod.fst) ∧
    outcomeInv ((Vec.Erase (⟨[1, 2], 2⟩ : Vec Nat) 1 none).map Prod.fst) ∧
    (Vec.PopBack (⟨[1, 2], 2⟩ : Vec Nat)).Inv ∧
    outcomeInv (Vec.Reserve ⟨false, true⟩ (⟨[1, 2], 2⟩ : Vec Nat) 3 (some 0)) ∧
    outcomeInv (Vec.Resize ⟨false, true⟩ (⟨[1, 2], 2⟩ : Vec Nat) 3 0 (some 0)
      none) ∧
    outcomeInv (Vec.copyAssign (⟨[1, 2], 2⟩ : Vec Nat) ⟨[7], 1⟩ false none) ∧
    (Vec.moveAssign (⟨[1, 2], 2⟩ : Vec Nat) ⟨[7], 1⟩ false).1.Inv ∧
    (Vec.moveAssign (⟨[1, 2], 2⟩ : Vec Nat) ⟨[7], 1⟩ false).2.Inv) :=
  have h := invariant_preserved ⟨false, true⟩ (fun _ => 0) (⟨[1, 2], 2⟩ : Vec Nat)
    ⟨[7], 1⟩ 5 0 1 3 false false (some 0) none none none
    (by simp [Vec.Inv, Vec.Size, Vec.Capacity])
    (by simp [Vec.Inv, Vec.Size, Vec.Capacity])
  ⟨h.1 ⟨[0, 0, 0], 3⟩ rfl, h.2.1, h.2.2.1, h.2.2.2.1, h.2.2.2.2.1, h.2.2.2.2.2.1,
   h.2.2.2.2.2.2.1, h.2.2.2.2.2.2.2.1, h.2.2.2.2.2.2.2.2.1,
   h.2.2.2.2.2.2.2.2.2.1, h.2.2.2.2.2.2.2.2.2.2⟩
